import Mathlib

/-!
Verification development for the `enum` Go package (olekukonko/enum).

The development shallowly embeds the core of the package:
the generic `Generator[T]` registry (`Next`, `Name`, `Get`,
`MarshalJSON`/`UnmarshalJSON`, the constructors `NewGenerator`,
`NewMapped`, `NewCyclic`), the generic `Value[T]` scalar wrapper
(`UnmarshalJSON`, `Scan`, `safeCast`), the string odometer of
`defaultIncrementer`, and the integer-specialized `Basic` facade
(`With`, `Scan`).

Go maps are modelled as association lists with unique keys and
map-assignment (replace-or-append) semantics; Go panics and Go errors
are both modelled as the `Except.error` branch of the result, paired
with the registry state at the moment of the abort (the Go methods
mutate nothing before their panic sites, so the aborted state equals
the input state); machine integers are modelled as `Int`, with the
two's-complement wrapping of Go conversions made explicit where it
matters (`safeCast`).
-/

namespace EnumSpec

/-- Lookup in a Go map modelled as an association list: returns the value
stored at the first (hence, with `mapSet`, the only) occurrence of the key. -/
def mapGet {K V : Type} [DecidableEq K] : List (K × V) → K → Option V
  | [], _ => none
  | (k', v) :: rest, k => if k' = k then some v else mapGet rest k

/-- Go map assignment `m[k] = v`: replaces the entry for `k` in place if the
key is present, otherwise appends a new entry. -/
def mapSet {K V : Type} [DecidableEq K] : List (K × V) → K → V → List (K × V)
  | [], k, v => [(k, v)]
  | (k', v') :: rest, k, v =>
      if k' = k then (k, v) :: rest else (k', v') :: mapSet rest k v

/-- Go map deletion `delete(m, k)`: removes the entry for `k`. -/
def mapDel {K V : Type} [DecidableEq K] : List (K × V) → K → List (K × V)
  | [], _ => []
  | (k', v) :: rest, k => if k' = k then mapDel rest k else (k', v) :: mapDel rest k

deriving instance DecidableEq for Except

@[simp]
theorem mapGet_nil {K V : Type} [DecidableEq K] (k : K) :
    mapGet ([] : List (K × V)) k = none := rfl

@[simp]
theorem mapGet_cons {K V : Type} [DecidableEq K] (k' : K) (v : V) (rest : List (K × V)) (k : K) :
    mapGet ((k', v) :: rest) k = if k' = k then some v else mapGet rest k := rfl

theorem mapGet_mapSet_self {K V : Type} [DecidableEq K] (m : List (K × V)) (k : K) (v : V) :
    mapGet (mapSet m k v) k = some v := by
  induction m with
  | nil => simp [mapSet]
  | cons p rest ih =>
      obtain ⟨k', v'⟩ := p
      by_cases h : k' = k <;> simp [mapSet, h, ih]

theorem mapGet_mapSet_ne {K V : Type} [DecidableEq K] (m : List (K × V)) (k k' : K) (v : V)
    (h : k ≠ k') : mapGet (mapSet m k v) k' = mapGet m k' := by
  induction m with
  | nil => simp [mapSet, h]
  | cons p rest ih =>
      obtain ⟨k'', v''⟩ := p
      by_cases h2 : k'' = k
      · subst h2
        simp [mapSet, h]
      · simp [mapSet, h2]
        split <;> simp_all

theorem mapGet_mapDel_self {K V : Type} [DecidableEq K] (m : List (K × V)) (k : K) :
    mapGet (mapDel m k) k = none := by
  induction m with
  | nil => rfl
  | cons p rest ih =>
      obtain ⟨k', v'⟩ := p
      by_cases h : k' = k <;> simp [mapDel, h, ih]

theorem mapGet_mapDel_ne {K V : Type} [DecidableEq K] (m : List (K × V)) (k k' : K)
    (h : k ≠ k') : mapGet (mapDel m k) k' = mapGet m k' := by
  induction m with
  | nil => rfl
  | cons p rest ih =>
      obtain ⟨k'', v''⟩ := p
      by_cases h2 : k'' = k
      · have h3 : ¬(k'' = k') := by rw [h2]; exact h
        simp [mapDel, h2, h3, h, ih]
      · simp [mapDel, h2, ih]

/-- `Value[T]` from `enum.go`: an underlying raw value paired with a display
name (`NewValue`/`New` constructs it; `Get` and `String` read the fields). -/
structure Value (T : Type) where
  value : T
  name : String
deriving DecidableEq, Repr

/-- `NewValue(value, name)`: plain constructor, no validation. -/
def NewValue {T : Type} (value : T) (name : String) : Value T := ⟨value, name⟩

/-- `Generator[T]` from the generator source file: the current sequence value,
the increment policy (`none` models the Go `nil` incrementer installed by
`NewMapped` and by `UnmarshalJSON`), the ordered slice of generated entries,
and the two index maps `valueMap : T -> name` and `nameMap : name -> T`.
The `sync.RWMutex` field has no sequential content and is not modelled. -/
structure Generator (T : Type) where
  current : T
  incrementer : Option (T → T)
  values : List (Value T)
  valueMap : List (T × String)
  nameMap : List (String × T)

/-- `NewGenerator(opts...)`: starts from the zero value with the default
incrementer for `T` (both passed explicitly here, since the Go code picks
them by a type switch), then applies the option functions in order. -/
def NewGenerator {T : Type} (zero : T) (dflt : T → T)
    (opts : List (Generator T → Generator T)) : Generator T :=
  opts.foldl (fun g o => o g)
    { current := zero, incrementer := some dflt, values := [], valueMap := [], nameMap := [] }

/-- `WithStart(start)` option: sets the starting value. -/
def WithStart {T : Type} (start : T) : Generator T → Generator T :=
  fun g => { g with current := start }

/-- `WithIncrementer(inc)` option: sets a custom increment function. -/
def WithIncrementer {T : Type} (inc : T → T) : Generator T → Generator T :=
  fun g => { g with incrementer := some inc }

/-- The `int` arm of Go's `defaultIncrementer` type switch: adds 1. -/
def defaultIncrementerInt (x : Int) : Int := x + 1

/-- `incRev` is the carry loop of the `string` arm of `defaultIncrementer`,
acting on the reversed rune list (the Go loop walks from the last rune to the
first): a rune below `'Z'` is incremented and the loop stops; any other rune
is replaced by `'A'` and the carry continues; `none` means every rune carried. -/
def incRev : List Char → Option (List Char)
  | [] => none
  | c :: rest =>
      if c < 'Z' then some (Char.ofNat (c.toNat + 1) :: rest)
      else match incRev rest with
        | some r => some ('A' :: r)
        | none => none

/-- The `string` arm of Go's `defaultIncrementer`: the base-26 uppercase
odometer. An empty string becomes `"A"`; otherwise the rune slice is run
through the carry loop, and if every rune carried (all were set to `'A'`)
a new leading `"A"` is prepended. -/
def defaultIncrementerString (s : String) : String :=
  if s.data.isEmpty then "A"
  else match incRev s.data.reverse with
    | some r => String.mk r.reverse
    | none => String.mk ('A' :: List.replicate s.data.length 'A')

/-- `NewCyclic(modulus)`: integer generator cycling `(i+1) % modulus` from 0;
a modulus `<= 0` is coerced to 1. Go's `%` is truncated division remainder,
hence `Int.tmod`. -/
def NewCyclic (modulus : Int) : Generator Int :=
  let m := if modulus ≤ 0 then (1 : Int) else modulus
  NewGenerator 0 defaultIncrementerInt
    [WithStart 0, WithIncrementer (fun i => Int.tmod (i + 1) m)]

/-- `NewNumeric(start)` at `T = int`: default incrementer, given start. -/
def NewNumeric (start : Int) : Generator Int :=
  NewGenerator 0 defaultIncrementerInt [WithStart start]

/-- `NewMapped(nameToValueMap)`: static registry pre-populated by iterating
the input mapping (modelled as a list of name/value pairs in iteration
order), with the incrementer set to `nil` to prevent `Next`. The zero value
of `T` is passed explicitly for the unset `current` field. -/
def NewMapped {T : Type} [DecidableEq T] (zero : T) (input : List (String × T)) : Generator T :=
  input.foldl
    (fun g p =>
      { g with
        values := g.values ++ [NewValue p.2 p.1]
        nameMap := mapSet g.nameMap p.1 p.2
        valueMap := mapSet g.valueMap p.2 p.1 })
    { current := zero, incrementer := none, values := [], valueMap := [], nameMap := [] }

/-- `Generator.Next(name)` from the generator source: panics (modelled as
`Except.error` paired with the unchanged state, since the Go method mutates
nothing before either panic site) when the incrementer is `nil` or the name
already exists; otherwise takes `current` as the new value, advances
`current`, appends the entry, and inserts into both index maps. -/
def Generator.Next {T : Type} [DecidableEq T] (g : Generator T) (name : String) :
    Except String (Value T) × Generator T :=
  match g.incrementer with
  | none => (.error "enum: cannot call Next on a Generator created with NewMapped", g)
  | some inc =>
      if (mapGet g.nameMap name).isSome then
        (.error "enum: name already exists", g)
      else
        let val := g.current
        let entry := NewValue val name
        (.ok entry,
          { current := inc val
            incrementer := some inc
            values := g.values ++ [entry]
            valueMap := mapSet g.valueMap val name
            nameMap := mapSet g.nameMap name val })

/-- `Generator.Name(value)`: value-to-name lookup. -/
def Generator.Name {T : Type} [DecidableEq T] (g : Generator T) (value : T) : Option String :=
  mapGet g.valueMap value

/-- `Generator.Get(name)`: name-to-value lookup. -/
def Generator.Get {T : Type} [DecidableEq T] (g : Generator T) (name : String) : Option T :=
  mapGet g.nameMap name

/-- Digit-list accumulator of the decimal parser `parseDecInt`. -/
def parseDecDigits : List Char → Nat → Option Nat
  | [], acc => some acc
  | c :: rest, acc =>
      if '0' ≤ c ∧ c ≤ '9' then parseDecDigits rest (acc * 10 + (c.toNat - 48))
      else none

/-- Base-10 signed integer parsing, the model of `strconv.ParseInt` /
`strconv.Atoi` (and of `encoding/json`'s decoding of an integer map key):
an optional leading minus sign followed by at least one decimal digit. -/
def parseDecInt (s : String) : Option Int :=
  match s.data with
  | [] => none
  | ['-'] => none
  | '-' :: ds => (parseDecDigits ds 0).map fun m => -(m : Int)
  | ds => (parseDecDigits ds 0).map fun m => (m : Int)

/-- Fuel-indexed digit emitter of `intToDecString` (the fuel bounds the
number of divisions by 10, making the recursion structural). -/
def natDigitsAux : Nat → Nat → List Char
  | 0, _ => []
  | _ + 1, 0 => []
  | fuel + 1, n => natDigitsAux fuel (n / 10) ++ [Char.ofNat (48 + n % 10)]

/-- Base-10 integer formatting, the model of `strconv.FormatInt` (and of
`encoding/json`'s rendering of an integer map key). -/
def intToDecString (n : Int) : String :=
  if n = 0 then "0"
  else if n < 0 then String.mk ('-' :: natDigitsAux n.natAbs n.natAbs)
  else String.mk (natDigitsAux n.natAbs n.natAbs)

/-- `Generator.MarshalJSON`: serializes the value-to-name map as a JSON
object, each key being the textual form of the raw value (the encoding
function `enc` stands for `encoding/json`'s map-key rendering). -/
def Generator.MarshalJSON {T : Type} (enc : T → String) (g : Generator T) :
    List (String × String) :=
  g.valueMap.map fun p => (enc p.1, p.2)

/-- The decode loop of `json.Unmarshal(data, &g.valueMap)` for a map target:
pairs are decoded one at a time in input order, each successfully parsed key
being assigned into the accumulating map; a key that fails to parse makes
the decoder save an `UnmarshalTypeError` (the failure flag `false`), skip
that entry, and continue decoding the remaining entries into the map —
`encoding/json` completes the unmarshaling as best it can and reports the
saved error at the end. -/
def decodePairs {T : Type} [DecidableEq T] (parse : String → Option T) :
    List (T × String) → List (String × String) → List (T × String) × Bool
  | acc, [] => (acc, true)
  | acc, (k, n) :: rest =>
      match parse k with
      | some v => decodePairs parse (mapSet acc v n) rest
      | none => ((decodePairs parse acc rest).1, false)

/-- `Generator.UnmarshalJSON` from the generator source: first clears the
whole registry state (fresh empty `valueMap` and `nameMap`, `values = nil`,
`incrementer = nil`), then runs `json.Unmarshal(data, &g.valueMap)` — which
populates only `valueMap` — returning its error. `parse` stands for the
key decoding of the target textual/numeric form. -/
def Generator.UnmarshalJSON {T : Type} [DecidableEq T] (parse : String → Option T)
    (g : Generator T) (data : List (String × String)) :
    Except String Unit × Generator T :=
  let decoded := decodePairs parse [] data
  ((if decoded.2 then .ok () else .error "json: cannot unmarshal object key"),
    { current := g.current
      incrementer := none
      values := []
      valueMap := decoded.1
      nameMap := [] })

/-- `Basic` from the basic source file: a human-readable name and an integer
value. The shared registry field `meta` (a `*Generator[int]`) is modelled by
passing the registry state explicitly to the methods. -/
structure Basic where
  name : String
  value : Int
deriving DecidableEq, Repr

/-- `Basic.With(v)` from the basic source file: under the registry lock,
panics (modelled as `Except.error`; nothing is mutated before the panic) if
`v` is already in `valueMap`; otherwise removes the old `(value, name)`
mappings from both maps when `valueMap[value]` still records this Basic's
name, inserts the new mappings, appends a fresh entry to the ordered `values`
slice (the old entry is intentionally not removed from it), and returns the
re-valued Basic together with the updated registry. -/
def Basic.With (e : Basic) (g : Generator Int) (v : Int) :
    Except String (Basic × Generator Int) :=
  match mapGet g.valueMap v with
  | some _ => .error "value already used"
  | none =>
      let g1 :=
        match mapGet g.valueMap e.value with
        | some oldName =>
            if oldName = e.name then
              { g with
                valueMap := mapDel g.valueMap e.value
                nameMap := mapDel g.nameMap e.name }
            else g
        | none => g
      .ok (⟨e.name, v⟩,
        { g1 with
          valueMap := mapSet g1.valueMap v e.name
          nameMap := mapSet g1.nameMap e.name v
          values := g1.values ++ [NewValue v e.name] })

/-- The persisted/database scalar protocol of `sql.Scanner`: a 64-bit signed
integer, a 64-bit float (its payload kept abstract in the type parameter
`F`, since IEEE arithmetic is not modelled), text, a byte string, the NULL
sentinel (`nil`), or any other driver type. -/
inductive SqlValue (F : Type) where
  | null
  | i64 (n : Int)
  | f64 (x : F)
  | bytes (s : String)
  | str (s : String)
  | other
deriving DecidableEq, Repr

/-- `Value.Scan` from `enum.go`: a `nil` input returns immediately with no
error and no mutation; `int64` and `float64` inputs go through `safeCast`,
string and byte inputs through `parseStringToValue` (both passed as the
functions `castI`, `castF`, `parseSV`, matching the Go type switch);
any other driver type is an unsupported-type error. On success only the
`value` field is assigned; the `name` field is never touched. -/
def Value.Scan {T F : Type} (castI : Int → Except String T) (castF : F → Except String T)
    (parseSV : String → Except String T) (e : Value T) (v : SqlValue F) :
    Except String (Value T) :=
  match v with
  | .null => .ok e
  | .i64 n =>
      match castI n with
      | .ok val => .ok { e with value := val }
      | .error msg => .error msg
  | .f64 x =>
      match castF x with
      | .ok val => .ok { e with value := val }
      | .error msg => .error msg
  | .bytes s =>
      match parseSV s with
      | .ok val => .ok { e with value := val }
      | .error msg => .error msg
  | .str s =>
      match parseSV s with
      | .ok val => .ok { e with value := val }
      | .error msg => .error msg
  | .other => .error "unsupported type for enum scan"

/-- `Value.UnmarshalJSON` from `enum.go`: runs `json.Unmarshal(data, &val)`
(the decoder `dec` stands for it) and on success assigns only the `value`
field; the `name` field is never touched. -/
def Value.UnmarshalJSON {T : Type} (dec : String → Except String T)
    (e : Value T) (data : String) : Except String (Value T) :=
  match dec data with
  | .ok val => .ok { e with value := val }
  | .error msg => .error msg

/-- `Basic.Scan` from the basic source file: errors on a `nil` registry;
resets to the zero value and empty name on a `nil` input; converts `int64`
(identity at 64 bits), `float64` (Go truncation, passed as `truncF`), and
decimal strings or byte strings (`strconv.Atoi`, modelled by
`parseDecInt`) to `int`, then requires the resulting value to be
registered, taking its name from the registry. -/
def Basic.Scan {F : Type} (truncF : F → Int) (meta : Option (Generator Int))
    (_e : Basic) (v : SqlValue F) : Except String Basic :=
  match meta with
  | none => .error "cannot scan into Basic enum with nil registry"
  | some g =>
      match v with
      | .null => .ok ⟨"", 0⟩
      | .i64 n =>
          match mapGet g.valueMap n with
          | some name => .ok ⟨name, n⟩
          | none => .error "invalid enum value"
      | .f64 x =>
          let n := truncF x
          match mapGet g.valueMap n with
          | some name => .ok ⟨name, n⟩
          | none => .error "invalid enum value"
      | .bytes s =>
          match parseDecInt s with
          | some n =>
              match mapGet g.valueMap n with
              | some name => .ok ⟨name, n⟩
              | none => .error "invalid enum value"
          | none => .error "invalid enum value"
      | .str s =>
          match parseDecInt s with
          | some n =>
              match mapGet g.valueMap n with
              | some name => .ok ⟨name, n⟩
              | none => .error "invalid enum value"
          | none => .error "invalid enum value"
      | .other => .error "unsupported type for scan"

/-- The integer target kinds of Go's numeric scalars. -/
inductive IntKind where
  | i8
  | i16
  | i32
  | i64
  | u8
  | u16
  | u32
  | u64
deriving DecidableEq, Repr

/-- Go's conversion of a (mathematical) integer into an integer kind:
reduction modulo `2^width`, re-centred for the signed kinds
(two's-complement wraparound). -/
def convertInt : IntKind → Int → Int
  | .i8, n => (n + 128) % 256 - 128
  | .i16, n => (n + 32768) % 65536 - 32768
  | .i32, n => (n + 2147483648) % 4294967296 - 2147483648
  | .i64, n => (n + 9223372036854775808) % 18446744073709551616 - 9223372036854775808
  | .u8, n => n % 256
  | .u16, n => n % 65536
  | .u32, n => n % 4294967296
  | .u64, n => n % 18446744073709551616

/-- The smallest value representable in an integer kind. -/
def kindMin : IntKind → Int
  | .i8 => -128
  | .i16 => -32768
  | .i32 => -2147483648
  | .i64 => -9223372036854775808
  | .u8 => 0
  | .u16 => 0
  | .u32 => 0
  | .u64 => 0

/-- The largest value representable in an integer kind. -/
def kindMax : IntKind → Int
  | .i8 => 127
  | .i16 => 32767
  | .i32 => 2147483647
  | .i64 => 9223372036854775807
  | .u8 => 255
  | .u16 => 65535
  | .u32 => 4294967295
  | .u64 => 18446744073709551615

/-- `n` is within the representable range of the integer kind `k`
(the spec's notion of "within T's representable range"). -/
def inRange (k : IntKind) (n : Int) : Prop :=
  kindMin k ≤ n ∧ n ≤ kindMax k

instance (k : IntKind) (n : Int) : Decidable (inRange k n) := by
  unfold inRange
  infer_instance

/-- `safeCast` from `enum.go`, at an integer target kind `k` with an `int64`
input: `reflect`'s `CanConvert` always holds between integer kinds, so the
value is converted to `k` (with Go's wrapping semantics), converted back to
`int64`, and compared with the input; a mismatch is the out-of-range error.
(The floating-point targets, which skip the round-trip check, and `float64`
inputs are outside this integer model.) -/
def safeCast (k : IntKind) (n : Int) : Except String Int :=
  let converted := convertInt k n
  if convertInt .i64 converted = n then .ok converted
  else .error "value is out of range for target type"

/-! ## Theorems about the claims -/

/-- C3: on a sequential registry, `Next(X)` after a previous successful
`Next(X)` fails (panic-equivalent) rather than silently overwriting, and the
registry state after the failed second call is identical to its state before
that call. -/
theorem next_duplicate_fails {T : Type} [DecidableEq T]
    (g : Generator T) (name : String) (e : Value T) (g' : Generator T)
    (h : g.Next name = (.ok e, g')) :
    (g'.Next name).1 = .error "enum: name already exists" ∧ (g'.Next name).2 = g' := by
  unfold Generator.Next at h ⊢
  cases hinc : g.incrementer with
  | none =>
      rw [hinc] at h
      simp at h
  | some inc =>
      rw [hinc] at h
      by_cases hdup : (mapGet g.nameMap name).isSome
      · simp [hdup] at h
      · simp [hdup] at h
        obtain ⟨-, hg⟩ := h
        subst hg
        simp [mapGet_mapSet_self]

/-- Witness for `next_duplicate_fails` at the concrete registry
`NewNumeric 0` and name `"X"`. -/
theorem next_duplicate_fails_witness :
    ((((NewNumeric 0).Next "X").2).Next "X").1 = .error "enum: name already exists" ∧
      ((((NewNumeric 0).Next "X").2).Next "X").2 = ((NewNumeric 0).Next "X").2 :=
  next_duplicate_fails (NewNumeric 0) "X" (NewValue 0 "X") ((NewNumeric 0).Next "X").2 rfl

theorem incRev_replicate_Z (n : Nat) : incRev (List.replicate n 'Z') = none := by
  induction n with
  | zero => rfl
  | succ m ih => simp [List.replicate_succ, incRev, ih]

/-- C10: the default string increment is the base-26 uppercase odometer:
it increments the last character when that character is below `'Z'`,
an all-`'Z'` string carries every position to `'A'` and gains a new leading
`'A'`, concretely `"Z" -> "AA"` and `"AZ" -> "BA"`, and a text sequential
registry started at `"Y"` yields `"Y"`, `"Z"`, `"AA"` on three successive
`Next` calls. -/
theorem default_string_odometer :
    (∀ (cs : List Char) (c : Char), c < 'Z' →
      defaultIncrementerString (String.mk (cs ++ [c])) =
        String.mk (cs ++ [Char.ofNat (c.toNat + 1)])) ∧
    (∀ n : Nat,
      defaultIncrementerString (String.mk (List.replicate (n + 1) 'Z')) =
        String.mk (List.replicate (n + 2) 'A')) ∧
    defaultIncrementerString "Z" = "AA" ∧
    defaultIncrementerString "AZ" = "BA" ∧
    (let g0 := NewGenerator "" defaultIncrementerString [WithStart "Y"]
     (g0.Next "Yankee").1 = .ok (NewValue "Y" "Yankee") ∧
     (((g0.Next "Yankee").2).Next "Zulu").1 = .ok (NewValue "Z" "Zulu") ∧
     (((((g0.Next "Yankee").2).Next "Zulu").2).Next "AlphaAlpha").1 =
       .ok (NewValue "AA" "AlphaAlpha")) := by
  refine ⟨?_, ?_, by decide, by decide, by decide⟩
  · intro cs c hc
    unfold defaultIncrementerString
    simp [incRev, hc]
  · intro n
    unfold defaultIncrementerString
    rw [if_neg (by simp [List.replicate_succ])]
    have h2 : (String.mk (List.replicate (n + 1) 'Z')).data.reverse =
        List.replicate (n + 1) 'Z' := by
      simp [List.reverse_replicate]
    rw [h2, incRev_replicate_Z]
    simp [List.replicate_succ]

/-- Witness for `default_string_odometer`: its last-character clause applied
at the concrete string `"AY"`. -/
theorem default_string_odometer_witness :
    ('Y' < 'Z') ∧
      defaultIncrementerString (String.mk (['A'] ++ ['Y'])) =
        String.mk (['A'] ++ [Char.ofNat ('Y'.toNat + 1)]) :=
  ⟨by decide, default_string_odometer.1 ['A'] 'Y' (by decide)⟩

/-- The spec's inverse-map invariant: every registered pair appears in both
index maps, and neither map holds an entry without its counterpart. -/
def InverseMaps {T : Type} [DecidableEq T] (g : Generator T) : Prop :=
  ∀ (v : T) (n : String), mapGet g.valueMap v = some n ↔ mapGet g.nameMap n = some v

/-- C1 counterexample: the inverse-map invariant fails on the code as
claimed. (a) On the cyclic registry of modulus 1, two `Next` calls register
the same raw value twice, and the overwritten value-to-name entry leaves
`nameMap["a"] = 0` while `valueMap[0] = "b"`. (b) After deserialization,
`UnmarshalJSON` populates only the value-to-name map, so the pair
`(1, "A")` has no counterpart in the empty name-to-value map. -/
theorem inverse_maps_cex :
    (let g2 := (((NewCyclic 1).Next "a").2.Next "b").2
     mapGet g2.nameMap "a" = some 0 ∧ mapGet g2.valueMap 0 = some "b") ∧
    (let g := NewMapped 0 [("A", (1 : Int))]
     let g' := (Generator.UnmarshalJSON parseDecInt g (Generator.MarshalJSON intToDecString g)).2
     mapGet g'.valueMap 1 = some "A" ∧ mapGet g'.nameMap "A" = none) := by
  decide

/-- C1 (amended): the two index maps are exact inverses after every
operation sequence in which each `Next`-generated value is fresh (not yet
registered): starting from a registry satisfying the invariant, a successful
`Next` whose captured value is not already in the value index preserves the
invariant. (A `Next` that revisits a registered value — e.g. under a cyclic
or constant incrementer — and deserialization both break the invariant, as
`inverse_maps_cex` shows.) -/
theorem inverse_maps_preserved {T : Type} [DecidableEq T]
    (g : Generator T) (name : String) (e : Value T) (g' : Generator T)
    (hInv : InverseMaps g)
    (hfresh : mapGet g.valueMap g.current = none)
    (h : g.Next name = (.ok e, g')) :
    InverseMaps g' := by
  unfold Generator.Next at h
  cases hinc : g.incrementer with
  | none =>
      rw [hinc] at h
      simp at h
  | some inc =>
      rw [hinc] at h
      by_cases hdup : (mapGet g.nameMap name).isSome
      · simp [hdup] at h
      · simp [hdup] at h
        obtain ⟨-, hg⟩ := h
        subst hg
        have hname : mapGet g.nameMap name = none := by
          cases hmg : mapGet g.nameMap name with
          | none => rfl
          | some x => rw [hmg] at hdup; simp at hdup
        intro v n
        by_cases hv : g.current = v
        · subst hv
          by_cases hn : name = n
          · subst hn
            simp [mapGet_mapSet_self]
          · rw [mapGet_mapSet_self, mapGet_mapSet_ne _ _ _ _ hn]
            constructor
            · intro hsome
              exact absurd (Option.some.injEq _ _ ▸ hsome) hn
            · intro hsome
              rw [(hInv g.current n).2 hsome] at hfresh
              exact absurd hfresh (by simp)
        · by_cases hn : name = n
          · subst hn
            rw [mapGet_mapSet_ne _ _ _ _ hv, mapGet_mapSet_self]
            constructor
            · intro hsome
              rw [(hInv v name).1 hsome] at hname
              exact absurd hname (by simp)
            · intro hsome
              exact absurd (Option.some.injEq _ _ ▸ hsome) hv
          · rw [mapGet_mapSet_ne _ _ _ _ hv, mapGet_mapSet_ne _ _ _ _ hn]
            exact hInv v n

/-- Witness for `inverse_maps_preserved`: the empty numeric registry
satisfies the invariant, its current value 0 is fresh, and the registry
after `Next("A")` therefore satisfies the invariant. -/
theorem inverse_maps_preserved_witness :
    InverseMaps ((NewNumeric 0).Next "A").2 := by
  have h0 : InverseMaps (NewNumeric 0) := by
    intro v n
    show mapGet [] v = some n ↔ mapGet [] n = some v
    simp
  exact inverse_maps_preserved (NewNumeric 0) "A" (NewValue 0 "A")
    ((NewNumeric 0).Next "A").2 h0 rfl rfl

/-- C2 (code bug): serialize-then-deserialize does not restore the
name-to-value index. On the static registry `{"B": 2}`, `MarshalJSON`
emits `{"2": "B"}` and `UnmarshalJSON` of that output succeeds and restores
the value-to-name index, but leaves the name-to-value index empty, while
the original registry's name index holds `("B", 2)` — `UnmarshalJSON`
unmarshals only into `valueMap`, although its own doc comment says it
populates `valueMap`, `nameMap`, and `values`. -/
theorem roundtrip_drops_nameMap :
    (Generator.UnmarshalJSON parseDecInt (NewMapped 0 [("B", (2 : Int))])
        (Generator.MarshalJSON intToDecString (NewMapped 0 [("B", (2 : Int))]))).1 = .ok () ∧
      (Generator.UnmarshalJSON parseDecInt (NewMapped 0 [("B", (2 : Int))])
        (Generator.MarshalJSON intToDecString (NewMapped 0 [("B", (2 : Int))]))).2.valueMap
        = [(2, "B")] ∧
      (Generator.UnmarshalJSON parseDecInt (NewMapped 0 [("B", (2 : Int))])
        (Generator.MarshalJSON intToDecString (NewMapped 0 [("B", (2 : Int))]))).2.nameMap
        = [] ∧
      (NewMapped 0 [("B", (2 : Int))]).nameMap = [("B", 2)] ∧
      (Generator.UnmarshalJSON parseDecInt (NewMapped 0 [("B", (2 : Int))])
        (Generator.MarshalJSON intToDecString (NewMapped 0 [("B", (2 : Int))]))).2.incrementer
        = none := by
  refine ⟨by decide, by decide, by decide, by decide, rfl⟩

theorem decodePairs_bad_key_flag {T : Type} [DecidableEq T] (parse : String → Option T) :
    ∀ (data : List (String × String)) (acc : List (T × String)),
      (∃ p ∈ data, parse p.1 = none) → (decodePairs parse acc data).2 = false := by
  intro data
  induction data with
  | nil =>
      intro acc h
      simp at h
  | cons q rest ih =>
      intro acc h
      obtain ⟨k, n⟩ := q
      cases hv : parse k with
      | none => simp [decodePairs, hv]
      | some v =>
          simp only [decodePairs, hv]
          obtain ⟨p, hp, hpn⟩ := h
          rcases List.mem_cons.mp hp with hq | hq
          · rw [hq] at hpn
            simp [hpn] at hv
          · exact ih (mapSet acc v n) ⟨p, hq, hpn⟩

/-- C4 (amended): when some key of the input mapping cannot be decoded into
the target textual/numeric form, `UnmarshalJSON` returns a recoverable
error, but the registry state is NOT left unchanged: the state is cleared
before decoding, so after the failure the name index and the entries are
empty, sequential generation is disabled, and the value index holds the
entries of every pair whose key decoded — a bad-key entry is skipped, its
error saved, and decoding continues with the remaining pairs. -/
theorem unmarshal_fails_cleared {T : Type} [DecidableEq T]
    (parse : String → Option T) (g : Generator T)
    (data : List (String × String))
    (hbad : ∃ p ∈ data, parse p.1 = none) :
    Generator.UnmarshalJSON parse g data =
      (.error "json: cannot unmarshal object key",
        { current := g.current
          incrementer := none
          values := []
          valueMap := (decodePairs parse ([] : List (T × String)) data).1
          nameMap := [] }) := by
  have hf := decodePairs_bad_key_flag parse data [] hbad
  unfold Generator.UnmarshalJSON
  simp [hf]

/-- Witness for `unmarshal_fails_cleared` at the static registry
`{"A": 1}` and the input `{"1": "A", "x": "B", "3": "C"}`, whose second key
is not decimal: the error is reported, the name index and entries are left
empty, and the value index holds the entries of both decodable keys —
including `(3, "C")`, which follows the bad key. -/
theorem unmarshal_fails_cleared_witness :
    Generator.UnmarshalJSON parseDecInt (NewMapped 0 [("A", (1 : Int))])
        [("1", "A"), ("x", "B"), ("3", "C")] =
      (.error "json: cannot unmarshal object key",
        { current := (NewMapped 0 [("A", (1 : Int))]).current
          incrementer := none
          values := []
          valueMap := [(1, "A"), (3, "C")]
          nameMap := [] }) := by
  have h := unmarshal_fails_cleared parseDecInt (NewMapped 0 [("A", (1 : Int))])
    [("1", "A"), ("x", "B"), ("3", "C")] (by decide)
  have hv : (decodePairs parseDecInt ([] : List (Int × String))
      [("1", "A"), ("x", "B"), ("3", "C")]).1 = [(1, "A"), (3, "C")] := by decide
  rw [h, hv]

/-- C4 counterexample: on the static registry `{"A": 1}`, deserializing the
undecodable input `{"x": "B"}` returns an error, yet the registry state is
changed rather than left unchanged: its name index and entries, nonempty
before the call, are empty after it. -/
theorem unmarshal_error_state_cex :
    let g := NewMapped 0 [("A", (1 : Int))]
    let res := Generator.UnmarshalJSON parseDecInt g [("x", "B")]
    res.1 = .error "json: cannot unmarshal object key" ∧
      res.2.nameMap = [] ∧
      res.2.values = [] ∧
      g.nameMap = [("A", 1)] ∧
      g.values = [NewValue 1 "A"] := by
  decide

/-- C6: `Basic.With(v)` fails (panic-equivalent) when `v` is already
registered to a different name; on success, when the calling Basic's
`(value, name)` pair is still the one recorded for `value` in the value
index, the old mapping is removed from both index maps, the new mapping
`v -> name` is inserted into both, and a fresh entry is appended to the
ordered entries sequence while every old entry — including the stale
old-value one — remains in it. -/
theorem basic_with_spec (g : Generator Int) (e : Basic) (v : Int) :
    (∀ n, mapGet g.valueMap v = some n → n ≠ e.name →
      e.With g v = .error "value already used") ∧
    (mapGet g.valueMap v = none → mapGet g.valueMap e.value = some e.name →
      e.With g v = .ok (⟨e.name, v⟩,
        { current := g.current
          incrementer := g.incrementer
          values := g.values ++ [NewValue v e.name]
          valueMap := mapSet (mapDel g.valueMap e.value) v e.name
          nameMap := mapSet (mapDel g.nameMap e.name) e.name v }) ∧
      mapGet (mapSet (mapDel g.valueMap e.value) v e.name) e.value = none ∧
      mapGet (mapSet (mapDel g.valueMap e.value) v e.name) v = some e.name ∧
      mapGet (mapSet (mapDel g.nameMap e.name) e.name v) e.name = some v) := by
  constructor
  · intro n hsome _
    unfold Basic.With
    rw [hsome]
  · intro hnone hold
    have hne : e.value ≠ v := by
      intro hcontra
      rw [hcontra, hnone] at hold
      exact absurd hold (by simp)
    refine ⟨?_, ?_, mapGet_mapSet_self _ _ _, mapGet_mapSet_self _ _ _⟩
    · unfold Basic.With
      rw [hnone, hold]
      simp
    · rw [mapGet_mapSet_ne _ _ _ _ (fun hvv => hne hvv.symm), mapGet_mapDel_self]

/-- Witness for `basic_with_spec`: in the registry holding only
`("OK", 0)`, reassigning the Basic `{name := "OK", value := 0}` to 200
removes `0` from the value index. -/
theorem basic_with_spec_witness :
    mapGet (mapSet (mapDel (((NewNumeric 0).Next "OK").2).valueMap 0) 200 "OK") 0 = none :=
  ((basic_with_spec (((NewNumeric 0).Next "OK").2) ⟨"OK", 0⟩ 200).2
    (by decide) (by decide)).2.1

/-- C7 counterexample: `safeCast` to the 64-bit unsigned kind at the
out-of-range `int64` input `-1` does not return an error: the
two's-complement wraparound round-trips exactly, so the cast silently
succeeds with the wrapped value `2^64 - 1`. -/
theorem safeCast_u64_wrap_cex :
    ¬inRange .u64 (-1) ∧ safeCast .u64 (-1) = .ok 18446744073709551615 := by
  constructor
  · decide
  · decide

/-- C7 (amended): for every integer target kind and every `int64` input
`n`, `safeCast` returns the converted value (which is `n` itself) when `n`
is within the target's representable range, and returns an error when `n`
is out of range — except for the 64-bit unsigned target, where an
out-of-range `n` wraps to `n mod 2^64` and is silently accepted, because
the convert-back round-trip check cannot distinguish the wrapped value.
(Floating-point targets, which skip the round-trip check, are outside this
integer model.) -/
theorem safeCast_characterization (k : IntKind) (n : Int)
    (h1 : -9223372036854775808 ≤ n) (h2 : n ≤ 9223372036854775807) :
    (inRange k n → safeCast k n = .ok n) ∧
    (¬inRange k n →
      if k = .u64 then safeCast k n = .ok (n % 18446744073709551616)
      else safeCast k n = .error "value is out of range for target type") := by
  cases k <;>
    refine ⟨fun h3 => ?_, fun h3 => ?_⟩ <;>
    simp only [inRange, kindMin, kindMax] at h3 <;>
    first
      | (simp only [safeCast, convertInt]
         rw [if_pos (by omega)]
         simp only [Except.ok.injEq]
         omega)
      | (rw [if_pos rfl]
         simp only [safeCast, convertInt]
         rw [if_pos (by omega)])
      | (rw [if_neg (by decide)]
         simp only [safeCast, convertInt]
         first
           | rw [if_neg (by omega)]
           | omega)

/-- Witness for `safeCast_characterization` at the signed 8-bit kind:
127 is in range and casts to itself; 200 is out of range and errors. -/
theorem safeCast_characterization_witness :
    safeCast .i8 127 = .ok 127 ∧
      safeCast .i8 200 = .error "value is out of range for target type" :=
  ⟨(safeCast_characterization .i8 127 (by decide) (by decide)).1 (by decide),
   by
    have h := (safeCast_characterization .i8 200 (by decide) (by decide)).2 (by decide)
    simpa using h⟩

/-- C8 counterexample: the generic `Value.Scan` of the NULL sentinel on the
instance `{value := 5, name := "X"}` succeeds but does not reset it — the
raw value stays 5 (not the zero value) and the name stays `"X"` (not
empty); the Go method returns immediately on `nil` without mutating. -/
theorem value_scan_null_no_reset_cex :
    Value.Scan (fun n => .ok n) (fun _ : Unit => .error "no float")
        (fun _ => .error "no parse") (NewValue (5 : Int) "X") .null =
      .ok (NewValue 5 "X") ∧
      (5 : Int) ≠ 0 ∧ "X" ≠ "" := by
  exact ⟨rfl, by decide, by decide⟩

/-- C8 (amended): scanning the NULL sentinel succeeds on both paths, but
only `Basic.Scan` resets its instance to the zero value and empty name;
the generic `Value.Scan` returns its instance unchanged, so it is in the
zero/unregistered state afterwards only if it already was before. -/
theorem scan_null_behavior :
    (∀ (F : Type) (truncF : F → Int) (g : Generator Int) (e : Basic),
      Basic.Scan truncF (some g) e .null = .ok ⟨"", 0⟩) ∧
    (∀ (T F : Type) (castI : Int → Except String T) (castF : F → Except String T)
        (parseSV : String → Except String T) (e : Value T),
      Value.Scan castI castF parseSV e .null = .ok e) :=
  ⟨fun _ _ _ _ => rfl, fun _ _ _ _ _ _ => rfl⟩

/-- C9: a successful decode sets only the raw value in place and never
touches the name: after `Value.UnmarshalJSON` or `Value.Scan` (numeric or
textual branch) succeeds, the name field is exactly what it was before the
call. -/
theorem decode_preserves_name {T F : Type}
    (dec : String → Except String T)
    (castI : Int → Except String T) (castF : F → Except String T)
    (parseSV : String → Except String T)
    (e : Value T) (data s : String) (n : Int) (v1 v2 v3 : T)
    (h1 : dec data = .ok v1) (h2 : castI n = .ok v2) (h3 : parseSV s = .ok v3) :
    Value.UnmarshalJSON dec e data = .ok ⟨v1, e.name⟩ ∧
      Value.Scan castI castF parseSV e (.i64 n) = .ok ⟨v2, e.name⟩ ∧
      Value.Scan castI castF parseSV e (.str s) = .ok ⟨v3, e.name⟩ := by
  refine ⟨?_, ?_, ?_⟩ <;> simp [Value.UnmarshalJSON, Value.Scan, h1, h2, h3]

/-- Witness for `decode_preserves_name`: decoding `"7"` into the instance
`{value := 3, name := "Pending"}` yields value 7 with the name still
`"Pending"`. -/
theorem decode_preserves_name_witness :
    Value.UnmarshalJSON
        (fun s => match parseDecInt s with
          | some m => Except.ok m
          | none => Except.error "bad")
        (NewValue (3 : Int) "Pending") "7" = .ok ⟨7, "Pending"⟩ ∧
      Value.Scan (fun m => Except.ok m) (fun _ : Unit => Except.error "no float")
        (fun s => match parseDecInt s with
          | some m => Except.ok m
          | none => Except.error "bad")
        (NewValue (3 : Int) "Pending") (.i64 9) = .ok ⟨9, "Pending"⟩ ∧
      Value.Scan (fun m => Except.ok m) (fun _ : Unit => Except.error "no float")
        (fun s => match parseDecInt s with
          | some m => Except.ok m
          | none => Except.error "bad")
        (NewValue (3 : Int) "Pending") (.str "11") = .ok ⟨11, "Pending"⟩ :=
  decode_preserves_name
    (fun s => match parseDecInt s with
      | some m => Except.ok m
      | none => Except.error "bad")
    (fun m => Except.ok m) (fun _ : Unit => Except.error "no float")
    (fun s => match parseDecInt s with
      | some m => Except.ok m
      | none => Except.error "bad")
    (NewValue (3 : Int) "Pending") "7" "11" 9 7 9 11 rfl rfl rfl

end EnumSpec
